import Mathlib

/-!
Verification of the interactive viewport controller of pdfjs-coordinates.

The repository is a browser PDF viewer (viewer.js and three iterations of
viewer.mjs, here src/unnamed/part_000 .. part_002, of which part_002 is the
most complete). This file gives a shallow embedding of the logic the
specification describes: the coordinate transform, page navigation, discrete
zoom stepping, the touch gesture recognizer (swipe and pinch ratchet), the
load and reload path, and the asynchronous render pipeline of renderPage.

JavaScript floating point numbers are modelled as exact rationals, since the
properties of interest are those of the exact arithmetic the code writes down.
Math.hypot distances reach the gesture handlers already computed, so touch
events carry the inter touch distance as a rational directly.
-/

namespace PdfCoords

/-- The unit conversion constant PDF_UNIT_TO_CM = 0.0352778 of all four viewer
sources (one PDF unit is 1/72 inch), modelled exactly as a rational. -/
def PDF_UNIT_TO_CM : ℚ := 352778 / 10000000

/-- The pixel to document unit conversion of the mousemove handlers
(src/unnamed/part_000 lines 112 to 120, src/unnamed/part_002 lines 82 to 83):
each component of the CSS pixel offset is divided by the scale and multiplied
by PDF_UNIT_TO_CM. -/
def toDocumentUnits (p : ℚ × ℚ) (s : ℚ) : ℚ × ℚ :=
  ((p.1 / s) * PDF_UNIT_TO_CM, (p.2 / s) * PDF_UNIT_TO_CM)

/-- Modelled from the spec: the inverse transform, which the repository never
writes explicitly, given in section 4.1 as toPixels(docPoint, scale) =
docPoint / UNIT_TO_CM * scale. -/
def toPixels (d : ℚ × ℚ) (s : ℚ) : ℚ × ℚ :=
  (d.1 / PDF_UNIT_TO_CM * s, d.2 / PDF_UNIT_TO_CM * s)

/-- The page navigation requests of part_002: the prev and next button click
handlers (lines 144 to 145, same guards as the keyboard handlers in lines 207
to 213), the load clamp of loadPDF (lines 124 to 133, with keep the state of
the retainViewport checkbox), and a swipe gesture from the touchend handler
(lines 268 to 275) with horizontal delta dx. -/
inductive NavOp where
  | prev
  | next
  | load (keep : Bool)
  | swipe (dx : ℚ)

/-- One navigation request applied to the current page number, for a document
with numPages pages. Mirrors, in order: if (pageNum greater than 1) pageNum
decrement; if (pageNum less than numPages) pageNum increment; the loadPDF
clamp pageNum = Math.min(Math.max(1, pageNum), numPages) after an optional
reset to 1; and the touchend swipe branches guarded by the same page bounds
and the 50 pixel threshold. -/
def navStep (numPages : Nat) (p : Nat) : NavOp → Nat
  | NavOp.prev => if 1 < p then p - 1 else p
  | NavOp.next => if p < numPages then p + 1 else p
  | NavOp.load keep => min (max 1 (if keep then p else 1)) numPages
  | NavOp.swipe dx =>
      if 50 < dx ∧ 1 < p then p - 1
      else if dx < -50 ∧ p < numPages then p + 1
      else p

/-- A finite sequence of navigation requests applied in order. -/
def navRun (numPages : Nat) (p : Nat) (ops : List NavOp) : Nat :=
  ops.foldl (navStep numPages) p

/-- JavaScript Array.prototype.indexOf restricted to rational arrays: the
index of the first strictly equal element, and -1 when the value is absent.
Used by the zoom branches of the part_002 keydown handler (lines 218 and
229). -/
def jsIndexOf : List ℚ → ℚ → Int
  | [], _ => -1
  | a :: as, x =>
      if a = x then 0
      else
        let r := jsIndexOf as x
        if r = -1 then -1 else r + 1

/-- Modelled from the spec: the zoomSteps array of part_002 line 43 is read
from the zoomSelect dropdown options of index.html, which is not under src.
Section 6 of the spec describes the selector as enumerated discrete values
from 50 percent to 300 percent with a mid range default, giving the usual
ascending step list below. -/
def zoomStepsHtml : List ℚ := [1/2, 3/4, 1, 5/4, 3/2, 2, 5/2, 3]

/-- The zoom in branch of the part_002 keydown handler (lines 216 to 225):
idx = zoomSteps.indexOf(scale); only when idx is at least 0 and below the last
position does the scale move to zoomSteps[idx + 1]. -/
def zoomStepUp (steps : List ℚ) (s : ℚ) : ℚ :=
  let idx := jsIndexOf steps s
  if 0 ≤ idx ∧ idx < (steps.length : Int) - 1 then steps.getD (idx + 1).toNat s else s

/-- The zoom out branch of the part_002 keydown handler (lines 227 to 236):
idx = zoomSteps.indexOf(scale); only when idx is strictly positive does the
scale move to zoomSteps[idx - 1]. -/
def zoomStepDown (steps : List ℚ) (s : ℚ) : ℚ :=
  let idx := jsIndexOf steps s
  if 0 < idx then steps.getD (idx - 1).toNat s else s

/-- The intents the gesture recognizer and zoom stepping can emit. -/
inductive Intent where
  | zoomIn
  | zoomOut
  | prevPage
  | nextPage
  deriving DecidableEq

/-- The mutable state touched by the part_002 touch handlers (lines 249 to
275): the two session variables touchStartX and touchStartDist (null modelled
as none), the page state and the scale. -/
structure TouchState where
  touchStartX : Option ℚ
  touchStartDist : Option ℚ
  pageNum : Nat
  numPages : Nat
  scale : ℚ
  deriving DecidableEq

/-- touchstart with one active touch (part_002 line 251): records the start x
and leaves every other field, including a previously recorded pinch baseline,
unchanged. -/
def touchStartOne (x : ℚ) (st : TouchState) : TouchState :=
  { st with touchStartX := some x }

/-- touchstart with two active touches (part_002 lines 252 to 256): records
the baseline inter touch distance and leaves every other field, including a
previously recorded single touch start position, unchanged. -/
def touchStartTwo (d : ℚ) (st : TouchState) : TouchState :=
  { st with touchStartDist := some d }

/-- touchmove with two active touches (part_002 lines 258 to 267), where d is
the current inter touch distance. The guard requires touchStartDist to be
JavaScript truthy: non null and non zero. A ratio above 1.1 multiplies the
scale by 1.1 and resets the baseline to d; a ratio below 0.9 divides the
scale by 1.1 and resets the baseline to d; otherwise nothing happens. -/
def touchMoveTwo (d : ℚ) (st : TouchState) : TouchState × Option Intent :=
  match st.touchStartDist with
  | none => (st, none)
  | some b =>
      if b = 0 then (st, none)
      else if d / b > 11/10 then
        ({ st with scale := st.scale * (11/10), touchStartDist := some d }, some Intent.zoomIn)
      else if d / b < 9/10 then
        ({ st with scale := st.scale / (11/10), touchStartDist := some d }, some Intent.zoomOut)
      else (st, none)

/-- The swipe decision of the part_002 touchend handler (lines 269 to 273):
when a start position was recorded and exactly one touch changed, a delta
above 50 on a page after the first goes back one page, a delta below -50 on a
page before the last goes forward one page, and anything else does nothing. -/
def touchEndCore (changed : Nat) (x : ℚ) (st : TouchState) : TouchState × Option Intent :=
  match st.touchStartX with
  | none => (st, none)
  | some sx =>
      if changed = 1 then
        if x - sx > 50 ∧ 1 < st.pageNum then
          ({ st with pageNum := st.pageNum - 1 }, some Intent.prevPage)
        else if x - sx < -50 ∧ st.pageNum < st.numPages then
          ({ st with pageNum := st.pageNum + 1 }, some Intent.nextPage)
        else (st, none)
      else (st, none)

/-- The full part_002 touchend handler (lines 268 to 275): the swipe decision
followed by the unconditional reset touchStartX = touchStartDist = null. -/
def touchEnd (changed : Nat) (x : ℚ) (st : TouchState) : TouchState × Option Intent :=
  let r := touchEndCore changed x st
  ({ r.1 with touchStartX := none, touchStartDist := none }, r.2)

/-- The touch events the part_002 handlers distinguish: a touchstart with one
or with two active touches, a touchmove with two active touches carrying the
current inter touch distance, and a touchend with exactly one changed touch
at the given x. -/
inductive TouchEv where
  | startOne (x : ℚ)
  | startTwo (d : ℚ)
  | moveTwo (d : ℚ)
  | endOne (x : ℚ)

/-- Dispatch of one touch event to the matching part_002 handler. -/
def touchStepEv (st : TouchState) : TouchEv → TouchState × Option Intent
  | TouchEv.startOne x => (touchStartOne x st, none)
  | TouchEv.startTwo d => (touchStartTwo d st, none)
  | TouchEv.moveTwo d => touchMoveTwo d st
  | TouchEv.endOne x => touchEnd 1 x st

/-- Runs a sequence of touch events, collecting the emitted intents. -/
def touchRun (st : TouchState) : List TouchEv → TouchState × List Intent
  | [] => (st, [])
  | e :: es =>
      let r := touchStepEv st e
      let rest := touchRun r.1 es
      (rest.1, r.2.toList ++ rest.2)

/-- Runs a sequence of two touch move distances through the touchmove
handler, collecting the emitted intents. -/
def pinchRun (st : TouchState) : List ℚ → TouchState × List Intent
  | [] => (st, [])
  | d :: ds =>
      let r := touchMoveTwo d st
      let rest := pinchRun r.1 ds
      (rest.1, r.2.toList ++ rest.2)

/-- Modelled from the spec (section 8, pinch ratchet): the number of times the
running ratio of the current distance over the last reset baseline exceeds
1.1 along the distance sequence, with the baseline moving to the current
distance at every crossing. -/
def crossCount (b : ℚ) : List ℚ → Nat
  | [] => 0
  | d :: ds => if d / b > 11/10 then crossCount d ds + 1 else crossCount b ds

/-- A render request: the page number and scale captured when renderPage is
entered (part_002 line 46). -/
structure RenderReq where
  page : Nat
  scale : ℚ
  deriving DecidableEq

/-- The observable canvas buffer state: which request its dimensions were last
resized for (part_002 lines 52 to 61) and which request last committed pixels
into it (the render completion at line 69). -/
structure CanvasBuf where
  dimsFor : Option RenderReq
  contentFor : Option RenderReq
  deriving DecidableEq

/-- The two phases of one renderPage call, separated by the awaited render
promise: the synchronous resize of both canvas buffers (part_002 lines 52 to
65) and the pixel commit that happens when the render promise resolves (line
69). The single threaded event loop can interleave phases of distinct calls
at the await boundary. -/
inductive RPhase where
  | resize (r : RenderReq)
  | commit (r : RenderReq)
  deriving DecidableEq

/-- Effect of one phase on the buffer. The commit is unconditional: part_002
performs no comparison of the completing request against the current page or
scale before the pixels land. -/
def renderApply (b : CanvasBuf) : RPhase → CanvasBuf
  | RPhase.resize r => { b with dimsFor := some r }
  | RPhase.commit r => { b with contentFor := some r }

/-- Runs a schedule of render phases over the buffer. -/
def renderRun (b : CanvasBuf) (s : List RPhase) : CanvasBuf :=
  s.foldl renderApply b

/-- For every commit in the schedule, the committing request paired with the
request the buffer dimensions were resized for at that moment. -/
def commitLog (b : CanvasBuf) : List RPhase → List (RenderReq × Option RenderReq)
  | [] => []
  | RPhase.resize r :: ps => commitLog (renderApply b (RPhase.resize r)) ps
  | RPhase.commit r :: ps => (r, b.dimsFor) :: commitLog (renderApply b (RPhase.commit r)) ps

/-- Schedules the event loop can produce: a commit of a request may only
happen after the synchronous prefix of that call has run its resize, since
the render promise of a call is created there. -/
def wellFormedSched (started : List RenderReq) : List RPhase → Prop
  | [] => True
  | RPhase.resize r :: ps => wellFormedSched (r :: started) ps
  | RPhase.commit r :: ps => r ∈ started ∧ wellFormedSched started ps

/-- The request of the last commit of the schedule, with c0 the content the
buffer started from. -/
def lastCommitFrom (c0 : Option RenderReq) : List RPhase → Option RenderReq
  | [] => c0
  | RPhase.resize _ :: ps => lastCommitFrom c0 ps
  | RPhase.commit r :: ps => lastCommitFrom (some r) ps

/-- Recognizer for commit phases. -/
def isCommit : RPhase → Bool
  | RPhase.commit _ => true
  | RPhase.resize _ => false

/-- The viewer state the load and reload path of part_002 touches. -/
structure ViewState where
  pageNum : Nat
  scale : ℚ
  numPages : Nat
  deriving DecidableEq

/-- loadPDF of part_002 (lines 124 to 133): keep is the state of the
retainViewport checkbox, defaultScale the current dropdown value and
newNumPages the page count of the decoded document. When keep is unchecked
the page resets to 1 and the scale to the dropdown default; afterwards the
page is clamped by pageNum = Math.min(Math.max(1, pageNum), numPages). -/
def loadPDF (keep : Bool) (defaultScale : ℚ) (newNumPages : Nat) (st : ViewState) : ViewState :=
  let st1 := if keep then st else { st with pageNum := 1, scale := defaultScale }
  { st1 with pageNum := min (max 1 st1.pageNum) newNumPages, numPages := newNumPages }

/-- The R branch of the part_002 keydown handler (lines 238 to 241): when a
byte buffer is held (hasData models pdfData being non null) it is fed back to
loadPDF; decoding the same buffer again yields the same page count, so the
reload passes the current page count to loadPDF. -/
def reloadKey (hasData : Bool) (keep : Bool) (defaultScale : ℚ) (st : ViewState) : ViewState :=
  if hasData then loadPDF keep defaultScale st.numPages st else st

/-- A JavaScript runtime fault: the TypeError raised by a property access on
null. -/
inductive JsFault where
  | typeError
  deriving DecidableEq

/-- The next button click handler of part_002 line 145 (and viewer.js lines
264 to 269): it reads pdfDoc.numPages before any null check, so with no
document loaded the property access faults. doc carries the page count of the
loaded document when one is present. -/
def nextClick (doc : Option Nat) (p : Nat) : Except JsFault Nat :=
  match doc with
  | none => Except.error JsFault.typeError
  | some n => Except.ok (if p < n then p + 1 else p)

/-- The prev button click handler of part_002 line 144: it reads only pageNum,
so it cannot fault, and the guard makes it a no op at page 1. -/
def prevClick (p : Nat) : Except JsFault Nat :=
  Except.ok (if 1 < p then p - 1 else p)

/-- The next button handler of the part_000 variant (lines 90 to 94), which
guards the missing document explicitly with (!pdfDoc || ...) and therefore
never faults. -/
def nextClickGuarded (doc : Option Nat) (p : Nat) : Except JsFault Nat :=
  match doc with
  | none => Except.ok p
  | some n => Except.ok (if p < n then p + 1 else p)

/-! Theorems. -/

/-- Claim C1: for every pixel offset with non negative coordinates and every
scale s above 0, converting the offset to document units with the mousemove
formula and back with the spec inverse toPixels yields the offset again,
exactly over rational arithmetic. -/
theorem c1_coordinate_roundtrip (p : ℚ × ℚ) (hx : 0 ≤ p.1) (hy : 0 ≤ p.2)
    (s : ℚ) (hs : 0 < s) :
    toPixels (toDocumentUnits p s) s = p := by
  have hu : PDF_UNIT_TO_CM ≠ 0 := by norm_num [PDF_UNIT_TO_CM]
  have hs0 : s ≠ 0 := ne_of_gt hs
  obtain ⟨x, y⟩ := p
  simp only [toPixels, toDocumentUnits, Prod.mk.injEq]
  constructor <;> (field_simp; ring)

/-- Witness for claim C1 at the offset (108, 72) and scale 3/2 of the spec
formatting example. -/
theorem c1_coordinate_roundtrip_witness :
    (0 : ℚ) ≤ 108 ∧ (0 : ℚ) ≤ 72 ∧ (0 : ℚ) < 3/2 ∧
      toPixels (toDocumentUnits (108, 72) (3/2)) (3/2) = (108, 72) :=
  ⟨by norm_num, by norm_num, by norm_num,
    c1_coordinate_roundtrip (108, 72) (by norm_num) (by norm_num) (3/2) (by norm_num)⟩

/-- One navigation request keeps the page number inside [1, numPages]. -/
theorem navStep_bounds (numPages : Nat) (p : Nat)
    (hp1 : 1 ≤ p) (hpN : p ≤ numPages) (op : NavOp) :
    1 ≤ navStep numPages p op ∧ navStep numPages p op ≤ numPages := by
  cases op with
  | prev => simp only [navStep]; split <;> omega
  | next => simp only [navStep]; split <;> omega
  | load keep => cases keep <;> simp only [navStep] <;> omega
  | swipe dx => simp only [navStep]; split <;> [skip; split] <;> omega

/-- Claim C2: for every document with at least one page and every finite
sequence of navigation requests (previous, next, load clamp, swipe), the page
number stays in [1, numPages] after each request, and a request that would
leave the range is a no op: previous at page 1, next at the last page, and the
respective swipes, all leave the page unchanged. -/
theorem c2_page_index_invariant (numPages : Nat) (hN : 1 ≤ numPages)
    (p : Nat) (hp1 : 1 ≤ p) (hpN : p ≤ numPages) (ops : List NavOp) :
    (1 ≤ navRun numPages p ops ∧ navRun numPages p ops ≤ numPages) ∧
      (p = 1 → navStep numPages p NavOp.prev = p) ∧
      (p = numPages → navStep numPages p NavOp.next = p) ∧
      (p = 1 → ∀ dx : ℚ, 50 < dx → navStep numPages p (NavOp.swipe dx) = p) ∧
      (p = numPages → ∀ dx : ℚ, dx < -50 → navStep numPages p (NavOp.swipe dx) = p) := by
  refine ⟨?_, ?_, ?_, ?_, ?_⟩
  · induction ops generalizing p with
    | nil => simpa [navRun] using ⟨hp1, hpN⟩
    | cons op rest ih =>
        have h := navStep_bounds numPages p hp1 hpN op
        simpa [navRun, List.foldl_cons] using ih _ h.1 h.2
  · rintro rfl; simp [navStep]
  · rintro rfl; simp [navStep]
  · rintro rfl dx hdx
    have h1 : ¬ dx < -50 := by linarith
    simp [navStep, h1]
  · rintro rfl dx hdx
    have h1 : ¬ (50 : ℚ) < dx := by linarith
    simp [navStep, h1]

/-- Witness for claim C2: a five page document starting at page 3 under a
concrete mixed request sequence. -/
theorem c2_page_index_invariant_witness :
    1 ≤ 5 ∧ 1 ≤ 3 ∧ 3 ≤ 5 ∧
      (1 ≤ navRun 5 3 [NavOp.next, NavOp.next, NavOp.next, NavOp.prev,
          NavOp.load false, NavOp.swipe 60] ∧
        navRun 5 3 [NavOp.next, NavOp.next, NavOp.next, NavOp.prev,
          NavOp.load false, NavOp.swipe 60] ≤ 5) :=
  ⟨by norm_num, by norm_num, by norm_num,
    (c2_page_index_invariant 5 (by norm_num) 3 (by norm_num) (by norm_num)
      [NavOp.next, NavOp.next, NavOp.next, NavOp.prev,
        NavOp.load false, NavOp.swipe 60]).1⟩

/-- Claim C10: at the failing input (no document loaded, page 1) the next
click of part_002 and viewer.js faults on the absent document handle instead
of being a silent no op; the prev click and the guarded part_000 variant of
the next click are silent no ops as the claim states. -/
theorem c10_nextclick_faults_without_document :
    nextClick none 1 = Except.error JsFault.typeError ∧
      prevClick 1 = Except.ok 1 ∧
      nextClickGuarded none 1 = Except.ok 1 :=
  ⟨rfl, rfl, rfl⟩

/-- Array.prototype.indexOf yields -1 exactly on absent values. -/
theorem jsIndexOf_eq_neg_one_of_not_mem (steps : List ℚ) (s : ℚ) (h : s ∉ steps) :
    jsIndexOf steps s = -1 := by
  induction steps with
  | nil => rfl
  | cons a as ih =>
      have hne : ¬ a = s := fun he => h (he ▸ List.mem_cons_self a as)
      have hs : s ∉ as := fun hm => h (List.mem_cons_of_mem a hm)
      simp [jsIndexOf, hne, ih hs]

/-- Claim C3 counterexample: the post pinch scale 11/10 is not a member of the
step set; the claim predicts stepUp moves it to the nearest member above
(5/4) and stepDown to the nearest member below (1), but both leave it
unchanged, because indexOf yields -1 and both branches require a found
index. -/
theorem c3_counterexample :
    (11/10 : ℚ) ∉ zoomStepsHtml ∧
      zoomStepUp zoomStepsHtml (11/10) = 11/10 ∧
      zoomStepDown zoomStepsHtml (11/10) = 11/10 ∧
      (11/10 : ℚ) ≠ 5/4 ∧ (11/10 : ℚ) ≠ 1 := by
  refine ⟨?_, ?_, ?_, by norm_num, by norm_num⟩
  · simp only [zoomStepsHtml, List.mem_cons, List.not_mem_nil, or_false]
    norm_num
  · norm_num [zoomStepUp, jsIndexOf, zoomStepsHtml]
  · norm_num [zoomStepDown, jsIndexOf, zoomStepsHtml]

/-- Claim C3 amended: when the current scale is not an exact member of the
step set, both stepUp and stepDown are no ops (indexOf returns -1 and both
guarded branches are skipped), for every step list. -/
theorem c3_nonmember_step_noop (steps : List ℚ) (s : ℚ) (h : s ∉ steps) :
    zoomStepUp steps s = s ∧ zoomStepDown steps s = s := by
  have hidx := jsIndexOf_eq_neg_one_of_not_mem steps s h
  constructor
  · simp [zoomStepUp, hidx]
  · simp [zoomStepDown, hidx]

/-- Witness for the amended claim C3 at the concrete non member scale
11/10. -/
theorem c3_nonmember_step_noop_witness :
    (11/10 : ℚ) ∉ zoomStepsHtml ∧
      (zoomStepUp zoomStepsHtml (11/10) = 11/10 ∧
        zoomStepDown zoomStepsHtml (11/10) = 11/10) :=
  ⟨by simp only [zoomStepsHtml, List.mem_cons, List.not_mem_nil, or_false]; norm_num,
    c3_nonmember_step_noop zoomStepsHtml (11/10)
      (by simp only [zoomStepsHtml, List.mem_cons, List.not_mem_nil, or_false]; norm_num)⟩

/-- An element read inside the bounds of a list is a member. -/
theorem getD_mem_of_lt (l : List ℚ) (i : Nat) (d : ℚ) (h : i < l.length) : l.getD i d ∈ l := by
  induction l generalizing i with
  | nil => simp at h
  | cons a as ih =>
      cases i with
      | zero => simp [List.getD_cons_zero]
      | succ n =>
          have hn : n < as.length := by simpa using h
          simpa [List.getD_cons_succ] using Or.inr (ih n hn)

/-- Inside the bounds of a list the getD default is irrelevant. -/
theorem getD_default_irrel (l : List ℚ) (i : Nat) (d e : ℚ) (h : i < l.length) :
    l.getD i d = l.getD i e := by
  induction l generalizing i with
  | nil => simp at h
  | cons a as ih =>
      cases i with
      | zero => simp [List.getD_cons_zero]
      | succ n =>
          have hn : n < as.length := by simpa using h
          simpa [List.getD_cons_succ] using ih n hn

/-- On a duplicate free array, indexOf recovers the position of every
element. -/
theorem jsIndexOf_getD_nodup (steps : List ℚ) (h : steps.Nodup) (i : Nat)
    (hi : i < steps.length) :
    jsIndexOf steps (steps.getD i 0) = i := by
  induction steps generalizing i with
  | nil => simp at hi
  | cons a as ih =>
      cases i with
      | zero => simp [jsIndexOf, List.getD_cons_zero]
      | succ n =>
          have hn : n < as.length := by simpa using hi
          have ha : a ∉ as := (List.nodup_cons.mp h).1
          have hne : ¬ a = as.getD n 0 := fun he => ha (he ▸ getD_mem_of_lt as n 0 hn)
          have hr := ih (List.nodup_cons.mp h).2 n hn
          have hnneg : ¬ jsIndexOf as (as.getD n 0) = -1 := by omega
          simp only [List.getD_cons_succ, jsIndexOf, hne, if_false, hr, hnneg, ite_false]
          push_cast
          ring

/-- On a duplicate free step list, stepUp from the member at a position below
the last moves to the member one position up. -/
theorem zoomStepUp_getD (steps : List ℚ) (h : steps.Nodup) (i : Nat)
    (hi : i + 1 < steps.length) :
    zoomStepUp steps (steps.getD i 0) = steps.getD (i + 1) 0 := by
  have hidx := jsIndexOf_getD_nodup steps h i (by omega)
  have hcond : (0 : Int) ≤ (i : Int) ∧ (i : Int) < (steps.length : Int) - 1 := by omega
  have htn : ((i : Int) + 1).toNat = i + 1 := by omega
  simp only [zoomStepUp, hidx]
  rw [if_pos hcond, htn]
  exact getD_default_irrel steps (i + 1) _ 0 hi

/-- On a duplicate free step list, stepDown from the member at a positive
position moves to the member one position down. -/
theorem zoomStepDown_getD (steps : List ℚ) (h : steps.Nodup) (i : Nat)
    (hi : i + 1 < steps.length) :
    zoomStepDown steps (steps.getD (i + 1) 0) = steps.getD i 0 := by
  have hidx := jsIndexOf_getD_nodup steps h (i + 1) hi
  have hcond : (0 : Int) < ((i : Int) + 1) := by omega
  have htn : ((i : Int) + 1 - 1).toNat = i := by omega
  simp only [zoomStepDown, hidx]
  push_cast
  rw [if_pos hcond, htn]
  exact getD_default_irrel steps i _ 0 (by omega)

/-- The modelled zoom step list has no duplicates. -/
theorem zoomStepsHtml_nodup : zoomStepsHtml.Nodup := by
  simp only [zoomStepsHtml, List.nodup_cons, List.mem_cons, List.not_mem_nil,
    or_false, List.nodup_nil, and_true, not_or]
  norm_num

/-- Claim C4: the zoom step set is strictly ascending and duplicate free; from
every interior member stepUp followed by stepDown returns to the original
value; at the top member stepUp is a no op and at the bottom member stepDown
is a no op. -/
theorem c4_zoom_step_algebra :
    List.Chain' (· < ·) zoomStepsHtml ∧
      zoomStepsHtml.Nodup ∧
      (∀ i : Nat, 0 < i → i + 1 < zoomStepsHtml.length →
        zoomStepDown zoomStepsHtml (zoomStepUp zoomStepsHtml (zoomStepsHtml.getD i 0)) =
          zoomStepsHtml.getD i 0) ∧
      zoomStepUp zoomStepsHtml 3 = 3 ∧
      zoomStepDown zoomStepsHtml (1/2) = 1/2 := by
  refine ⟨?_, zoomStepsHtml_nodup, ?_, ?_, ?_⟩
  · simp only [zoomStepsHtml, List.chain'_cons, List.chain'_singleton, and_true]
    norm_num
  · intro i h0 hlt
    rw [zoomStepUp_getD zoomStepsHtml zoomStepsHtml_nodup i hlt]
    obtain ⟨j, rfl⟩ : ∃ j, i = j + 1 := ⟨i - 1, by omega⟩
    rw [zoomStepDown_getD zoomStepsHtml zoomStepsHtml_nodup (j + 1) hlt]
  · have h7 : jsIndexOf zoomStepsHtml 3 = 7 :=
      jsIndexOf_getD_nodup zoomStepsHtml zoomStepsHtml_nodup 7 (by simp [zoomStepsHtml])
    have hlen : zoomStepsHtml.length = 8 := rfl
    simp only [zoomStepUp, h7, hlen]
    norm_num
  · have h0 : jsIndexOf zoomStepsHtml (1/2) = 0 :=
      jsIndexOf_getD_nodup zoomStepsHtml zoomStepsHtml_nodup 0 (by simp [zoomStepsHtml])
    simp only [zoomStepDown, h0]
    norm_num

/-- Witness for claim C4 at the interior index 2 (scale 1). -/
theorem c4_zoom_step_algebra_witness :
    0 < 2 ∧ 2 + 1 < zoomStepsHtml.length ∧
      zoomStepDown zoomStepsHtml (zoomStepUp zoomStepsHtml (zoomStepsHtml.getD 2 0)) =
        zoomStepsHtml.getD 2 0 :=
  ⟨by norm_num, by simp [zoomStepsHtml],
    c4_zoom_step_algebra.2.2.1 2 (by norm_num) (by simp [zoomStepsHtml])⟩

/-- Claim C6: for a single touch session ending with one changed touch at x,
with recorded start sx: a delta above 50 on a page after the first emits
exactly the previous page intent, a delta below -50 on a page before the last
emits exactly the next page intent, and a delta of magnitude at most 50 emits
nothing. -/
theorem c6_swipe_threshold (st : TouchState) (sx : ℚ)
    (h : st.touchStartX = some sx) (x : ℚ) :
    (x - sx > 50 → 1 < st.pageNum → (touchEnd 1 x st).2 = some Intent.prevPage) ∧
      (x - sx < -50 → st.pageNum < st.numPages →
        (touchEnd 1 x st).2 = some Intent.nextPage) ∧
      (|x - sx| ≤ 50 → (touchEnd 1 x st).2 = none) := by
  refine ⟨?_, ?_, ?_⟩
  · intro hdx hp
    simp [touchEnd, touchEndCore, h, hdx, hp]
  · intro hdx hp
    have h1 : ¬ x - sx > 50 := by linarith
    simp [touchEnd, touchEndCore, h, h1, hdx, hp]
  · intro habs
    have h1 : ¬ x - sx > 50 := by
      have := (abs_le.mp habs).2
      linarith
    have h2 : ¬ x - sx < -50 := by
      have := (abs_le.mp habs).1
      linarith
    simp [touchEnd, touchEndCore, h, h1, h2]

/-- Witness for claim C6: the spec example, start x 100 and end x 40 on page
1 of 2, emits exactly the next page intent. -/
theorem c6_swipe_threshold_witness :
    (⟨some 100, none, 1, 2, 1⟩ : TouchState).touchStartX = some 100 ∧
      ((40 : ℚ) - 100 < -50 ∧ (1 : Nat) < 2) ∧
      (touchEnd 1 40 ⟨some 100, none, 1, 2, 1⟩).2 = some Intent.nextPage :=
  ⟨rfl, ⟨by norm_num, by norm_num⟩,
    (c6_swipe_threshold ⟨some 100, none, 1, 2, 1⟩ 100 rfl 40).2.1
      (by norm_num) (by norm_num)⟩

/-- Claim C7 counterexample: a session that starts with one touch at x 100,
becomes a two touch pinch with baseline 200 and a pinch move to distance 210,
then ends with one changed touch at x 200, emits a previous page swipe intent
computed from the pre pinch start position, because the two touch touchstart
left touchStartX live. The claim says no field of the prior session survives,
so no swipe could be emitted. -/
theorem c7_counterexample :
    (touchRun ⟨none, none, 2, 3, 1⟩
        [TouchEv.startOne 100, TouchEv.startTwo 200, TouchEv.moveTwo 210,
          TouchEv.endOne 200]).2 = [Intent.prevPage] ∧
      (touchStartTwo 200 (touchStartOne 100 ⟨none, none, 2, 3, 1⟩)).touchStartX =
        some 100 := by
  constructor
  · norm_num [touchRun, touchStepEv, touchStartOne, touchStartTwo, touchMoveTwo,
      touchEnd, touchEndCore]
  · rfl

/-- Claim C7 amended: a touchstart with two touches records the pinch baseline
but leaves a previously recorded single touch start position live, and a
touchstart with one touch leaves a previously recorded pinch baseline live;
the session fields are only destroyed by touchend, which always resets both
to null. In consequence a session that became a pinch can still emit a swipe
intent from the pre pinch start position at touchend. -/
theorem c7_session_fields (st : TouchState) (x d : ℚ) :
    (touchStartTwo d st).touchStartX = st.touchStartX ∧
      (touchStartOne x st).touchStartDist = st.touchStartDist ∧
      (touchEnd 1 x st).1.touchStartX = none ∧
      (touchEnd 1 x st).1.touchStartDist = none :=
  ⟨rfl, rfl, rfl, rfl⟩

/-- Claim C8 counterexample: with the retainViewport checkbox unchecked, a
reload via the R key from page 3 of a 5 page document lands on page 1, not
page 3. -/
theorem c8_counterexample :
    (reloadKey true false (3/2) ⟨3, 3/2, 5⟩).pageNum = 1 ∧ (1 : Nat) ≠ 3 :=
  ⟨rfl, by norm_num⟩

/-- Claim C8 amended: the R key reloads the held byte buffer; the page index
survives the reload exactly when the retainViewport preference is checked (the
clamp is the identity for an in range page), and resets to 1 when it is not
checked. -/
theorem c8_reload_retain (st : ViewState) (ds : ℚ)
    (h1 : 1 ≤ st.pageNum) (h2 : st.pageNum ≤ st.numPages) :
    (reloadKey true true ds st).pageNum = st.pageNum ∧
      (reloadKey true false ds st).pageNum = 1 := by
  constructor
  · simp [reloadKey, loadPDF]
    omega
  · simp [reloadKey, loadPDF]
    omega

/-- Witness for the amended claim C8: page 3 of a 5 page document survives a
retaining reload. -/
theorem c8_reload_retain_witness :
    1 ≤ 3 ∧ 3 ≤ 5 ∧ (reloadKey true true (3/2) ⟨3, 3/2, 5⟩).pageNum = 3 :=
  ⟨by norm_num, by norm_num,
    (c8_reload_retain ⟨3, 3/2, 5⟩ (3/2) (by norm_num) (by norm_num)).1⟩

/-- Claim C9 counterexample: two render requests r1 (page 2) and r2 (page 3),
with r2 issued while r1 is pending. Both interleavings below are schedules
the event loop can produce. In the first, the commit of r1 lands in a buffer
already resized for r2 (the commit log records the stale pair), which the
claim says must never happen. In the second, the commits resolve out of
order and the final buffer content is the superseded r1, so renders are not
observably applied in issue order. -/
theorem c9_counterexample :
    wellFormedSched []
        [RPhase.resize ⟨2, 3/2⟩, RPhase.resize ⟨3, 3/2⟩,
          RPhase.commit ⟨2, 3/2⟩, RPhase.commit ⟨3, 3/2⟩] ∧
      commitLog ⟨none, none⟩
          [RPhase.resize ⟨2, 3/2⟩, RPhase.resize ⟨3, 3/2⟩,
            RPhase.commit ⟨2, 3/2⟩, RPhase.commit ⟨3, 3/2⟩] =
        [(⟨2, 3/2⟩, some ⟨3, 3/2⟩), (⟨3, 3/2⟩, some ⟨3, 3/2⟩)] ∧
      (⟨2, 3/2⟩ : RenderReq) ≠ ⟨3, 3/2⟩ ∧
      wellFormedSched []
        [RPhase.resize ⟨2, 3/2⟩, RPhase.resize ⟨3, 3/2⟩,
          RPhase.commit ⟨3, 3/2⟩, RPhase.commit ⟨2, 3/2⟩] ∧
      (renderRun ⟨none, none⟩
          [RPhase.resize ⟨2, 3/2⟩, RPhase.resize ⟨3, 3/2⟩,
            RPhase.commit ⟨3, 3/2⟩, RPhase.commit ⟨2, 3/2⟩]).contentFor =
        some ⟨2, 3/2⟩ := by
  refine ⟨?_, rfl, ?_, ?_, rfl⟩
  · simp [wellFormedSched]
  · intro h
    injection h with h1 h2
    exact absurd h1 (by norm_num)
  · simp [wellFormedSched]

/-- Claim C9 amended: renderPage has no staleness check. Every render
completion commits unconditionally (the commit log has exactly one entry per
commit phase, even when the buffer was resized for a different request), and
the final buffer content is that of the last completion in schedule order,
which may belong to a superseded request. -/
theorem c9_no_staleness_guard (b : CanvasBuf) (s : List RPhase) :
    (renderRun b s).contentFor = lastCommitFrom b.contentFor s ∧
      (commitLog b s).length = (s.filter isCommit).length := by
  constructor
  · induction s generalizing b with
    | nil => rfl
    | cons p ps ih =>
        cases p with
        | resize r =>
            simpa [renderRun, List.foldl_cons, renderApply, lastCommitFrom] using
              ih { b with dimsFor := some r }
        | commit r =>
            simpa [renderRun, List.foldl_cons, renderApply, lastCommitFrom] using
              ih { b with contentFor := some r }
  · induction s generalizing b with
    | nil => rfl
    | cons p ps ih =>
        cases p with
        | resize r =>
            simpa [commitLog, renderApply, List.filter, isCommit] using
              ih { b with dimsFor := some r }
        | commit r =>
            simpa [commitLog, renderApply, List.filter, isCommit] using
              ih { b with contentFor := some r }

/-- The ratchet crossing count never exceeds the number of move events. -/
theorem crossCount_le_length (b : ℚ) (ds : List ℚ) : crossCount b ds ≤ ds.length := by
  induction ds generalizing b with
  | nil => simp [crossCount]
  | cons d rest ih =>
      simp only [crossCount, List.length_cons]
      split
      · exact Nat.succ_le_succ (ih d)
      · exact Nat.le_succ_of_le (ih b)

/-- Core of the pinch ratchet correspondence, by induction over the distance
sequence with the pairwise form of monotonicity. -/
theorem pinchRun_mono_aux (ds : List ℚ) : ∀ (st : TouchState) (b : ℚ),
    st.touchStartDist = some b → 0 < b → List.Pairwise (· ≤ ·) (b :: ds) →
    (pinchRun st ds).2.count Intent.zoomIn = crossCount b ds ∧
      (pinchRun st ds).2.count Intent.zoomOut = 0 ∧
      (pinchRun st ds).1.scale = st.scale * (11/10) ^ crossCount b ds := by
  induction ds with
  | nil =>
      intro st b hb h0 hpw
      simp [pinchRun, crossCount]
  | cons d rest ih =>
      intro st b hb h0 hpw
      have hpc := List.pairwise_cons.mp hpw
      have hbd : b ≤ d := hpc.1 d (List.mem_cons_self d rest)
      have hd0 : 0 < d := lt_of_lt_of_le h0 hbd
      have hpw_d : List.Pairwise (· ≤ ·) (d :: rest) := hpc.2
      have hpw_b : List.Pairwise (· ≤ ·) (b :: rest) :=
        List.pairwise_cons.mpr ⟨fun x hx => hpc.1 x (List.mem_cons_of_mem d hx),
          (List.pairwise_cons.mp hpw_d).2⟩
      by_cases hgt : d / b > 11/10
      · have hmv : touchMoveTwo d st =
            ({ st with scale := st.scale * (11/10), touchStartDist := some d },
              some Intent.zoomIn) := by
          simp [touchMoveTwo, hb, h0.ne', hgt]
        obtain ⟨h1, h2, h3⟩ :=
          ih { st with scale := st.scale * (11/10), touchStartDist := some d } d rfl
            hd0 hpw_d
        refine ⟨?_, ?_, ?_⟩
        · simp only [pinchRun, hmv, Option.toList, List.cons_append, List.nil_append]
          simp [List.count_cons, h1, crossCount, hgt]
        · simp only [pinchRun, hmv, Option.toList, List.cons_append, List.nil_append]
          simp [List.count_cons, h2]
        · simp only [pinchRun, hmv]
          rw [h3]
          simp only [crossCount, if_pos hgt, pow_succ]
          ring
      · have hone : (1 : ℚ) ≤ d / b := (one_le_div h0).mpr hbd
        have hnotlt : ¬ d / b < 9/10 := by linarith
        have hmv : touchMoveTwo d st = (st, none) := by
          simp [touchMoveTwo, hb, h0.ne', hgt, hnotlt]
        obtain ⟨h1, h2, h3⟩ := ih st b hb h0 hpw_b
        refine ⟨?_, ?_, ?_⟩
        · simp only [pinchRun, hmv, Option.toList, List.nil_append]
          simp [h1, crossCount, hgt]
        · simp only [pinchRun, hmv, Option.toList, List.nil_append]
          simp [h2]
        · simp only [pinchRun, hmv]
          rw [h3]
          simp [crossCount, hgt]

/-- Claim C5: over a two touch pinch session with positive baseline, a
monotonically non decreasing distance sequence makes the touchmove handler
emit exactly one zoom in intent per crossing of the 1.1 ratio over the last
reset baseline (crossCount, the spec side recurrence), never a zoom out
intent, with the scale multiplied by 1.1 per crossing and the intent count
bounded by the number of move events rather than equal to it; and,
symmetrically, any single move whose ratio over the last reset baseline is
below 0.9 emits a zoom out intent that divides the scale by 1.1 and resets
the baseline to the current distance. -/
theorem c5_pinch_ratchet :
    (∀ (st : TouchState) (b : ℚ) (ds : List ℚ),
        st.touchStartDist = some b → 0 < b → List.Chain' (· ≤ ·) (b :: ds) →
        (pinchRun st ds).2.count Intent.zoomIn = crossCount b ds ∧
          (pinchRun st ds).2.count Intent.zoomOut = 0 ∧
          (pinchRun st ds).1.scale = st.scale * (11/10) ^ crossCount b ds ∧
          crossCount b ds ≤ ds.length) ∧
      (∀ (st : TouchState) (b d : ℚ),
        st.touchStartDist = some b → 0 < b → d / b < 9/10 →
        touchMoveTwo d st =
          ({ st with scale := st.scale / (11/10), touchStartDist := some d },
            some Intent.zoomOut)) := by
  constructor
  · intro st b ds hb h0 hmono
    have hpw : List.Pairwise (· ≤ ·) (b :: ds) := List.chain'_iff_pairwise.mp hmono
    obtain ⟨h1, h2, h3⟩ := pinchRun_mono_aux ds st b hb h0 hpw
    exact ⟨h1, h2, h3, crossCount_le_length b ds⟩
  · intro st b d hb h0 hlt
    have hngt : ¬ d / b > 11/10 := by linarith
    simp [touchMoveTwo, hb, h0.ne', hngt, hlt]

/-- Witness for claim C5, both parts at the baseline 100: the increasing
distance sequence 105, 108, 112 crosses the ratchet threshold once over three
move events, so exactly one zoom in intent is emitted; and the single move to
distance 80 (ratio 0.8) emits a zoom out intent dividing the scale by 1.1 and
resetting the baseline to 80. -/
theorem c5_pinch_ratchet_witness :
    (⟨none, some 100, 1, 1, 1⟩ : TouchState).touchStartDist = some 100 ∧
      (0 : ℚ) < 100 ∧
      List.Chain' (· ≤ ·) [(100 : ℚ), 105, 108, 112] ∧
      crossCount 100 [105, 108, 112] = 1 ∧
      1 < [(105 : ℚ), 108, 112].length ∧
      (pinchRun ⟨none, some 100, 1, 1, 1⟩ [105, 108, 112]).2.count Intent.zoomIn =
        crossCount 100 [105, 108, 112] ∧
      (80 : ℚ) / 100 < 9/10 ∧
      touchMoveTwo 80 ⟨none, some 100, 1, 1, 1⟩ =
        (⟨none, some 80, 1, 1, 1 / (11/10)⟩, some Intent.zoomOut) :=
  ⟨rfl, by norm_num,
    by simp only [List.chain'_cons, List.chain'_singleton, and_true]; norm_num,
    by norm_num [crossCount], by norm_num,
    (c5_pinch_ratchet.1 ⟨none, some 100, 1, 1, 1⟩ 100 [105, 108, 112] rfl
      (by norm_num)
      (by simp only [List.chain'_cons, List.chain'_singleton, and_true]; norm_num)).1,
    by norm_num,
    c5_pinch_ratchet.2 ⟨none, some 100, 1, 1, 1⟩ 100 80 rfl (by norm_num) (by norm_num)⟩

end PdfCoords
